import Mathlib

/-!
Traffic light with a coalescing message queue.

A shallow embedding of `src/TrafficLight.cpp`: the generic `MessageQueue<T>`
(`send`, `receive`) and the class `TrafficLight` (`waitForGreen`,
`getCurrentPhase`, `setCycleDuration`, `getDifferenceToCurrentTime`,
`cycleThroughPhases`).

Conventions of the embedding.

* The buffer `_queue` is a `List T`; its front is the head of the list and its
  back is the last element.
* Every critical section (the body executed while a mutex is held) is one
  atomic step.  A call of `receive` is the evaluation of the wait predicate
  under the lock followed, when the predicate holds, by the tail read and the
  `clear`; when the predicate fails the caller stays suspended, which the
  embedding renders as the result `none`.
* The loop body of `cycleThroughPhases` has two critical sections: the write of
  `_currentPhase` under `_mutex` and the `send` under the lock of the channel.
  `Event` takes one pass through the body as one step, which is enough for
  what is sent to and returned by the channel; `Moment` splits the pass at the
  release of `_mutex`, so that a consumer can run between the write of the
  phase and the `send`.
* Clock readings and random draws are inputs of the steps that take them.
-/

namespace TrafficSim

/-! ## MessageQueue -/

namespace MessageQueue

variable {T : Type}

/-- The call `_queue.back()`: the last element of a buffer that is known to be
non-empty.  The precondition of `std::deque::back` is the proof argument. -/
def back (q : List T) (h : q ≠ []) : T :=
  q.getLast h

/-- The method `MessageQueue<T>::send`: `_queue.emplace_back(msg)`.  The
notification has no effect on the data. -/
def send (q : List T) (msg : T) : List T :=
  q ++ [msg]

/-- The method `MessageQueue<T>::receive`.  The wait predicate is
`!_queue.empty()`; while it is false the caller is suspended (`none`).  When it
is true the tail is moved out, the buffer is cleared, and the tail is returned
together with the new buffer. -/
def receive (q : List T) : Option (T × List T) :=
  if h : q.isEmpty then none
  else some (back q (fun e => h (by rw [e]; rfl)), [])

/-- An operation on a channel, in the order in which the critical sections are
executed. -/
inductive Op (T : Type) where
  | send (msg : T) : Op T
  | receive : Op T
  deriving DecidableEq, Repr

/-- Runs a sequence of operations on a buffer.  The result is the final buffer
and the values returned by the `receive` operations, in order.  A `receive`
that finds the buffer empty returns nothing there: its caller remains
suspended. -/
def history : List T → List (Op T) → List T × List T
  | q, [] => (q, [])
  | q, Op.send msg :: ops => history (send q msg) ops
  | q, Op.receive :: ops =>
    match receive q with
    | none => history q ops
    | some (msg, q1) => ((history q1 ops).1, msg :: (history q1 ops).2)

/-- The values passed to `send` in a sequence of operations, in order. -/
def sentValues : List (Op T) → List T
  | [] => []
  | Op.send msg :: ops => msg :: sentValues ops
  | Op.receive :: ops => sentValues ops

/-- Sends the values of a list one after the other. -/
def sendAll (q : List T) (vs : List T) : List T :=
  vs.foldl send q

end MessageQueue

/-! ## TrafficLight -/

/-- The enumeration `TrafficLightPhase`. -/
inductive TrafficLightPhase where
  | red : TrafficLightPhase
  | green : TrafficLightPhase
  deriving DecidableEq, Repr

/-- The other phase: the value of the conditional expression
`(p == red) ? green : red`. -/
def TrafficLightPhase.opposite (p : TrafficLightPhase) : TrafficLightPhase :=
  if p = TrafficLightPhase.red then TrafficLightPhase.green else TrafficLightPhase.red

/-- The data members of `TrafficLight` that the methods read and write.
`_messageQueue` is the buffer of the member `MessageQueue<TrafficLightPhase>`.
`_cycleDuration` holds a number of seconds; it is only ever assigned the result
of the distribution over `[4, 6]`, so a natural number represents it whatever
arithmetic type the header declares. -/
structure TrafficLight where
  _currentPhase : TrafficLightPhase
  _cycleDuration : Nat
  _messageQueue : List TrafficLightPhase
  deriving DecidableEq, Repr

/-- The library call `std::uniform_int_distribution<int> dist(a, b); dist(engine)`.
The library promises a value of the closed range `[a, b]`; `engine` stands for
the entropy the generator delivers, and every value of the range is produced by
some entropy. -/
def uniform_int_distribution (a b : Nat) (engine : Nat) : Nat :=
  a + engine % (b - a + 1)

namespace TrafficLight

/-- The method `TrafficLight::setCycleDuration`: a fresh draw from `[4, 6]` is
stored in `_cycleDuration`. -/
def setCycleDuration (tl : TrafficLight) (engine : Nat) : TrafficLight :=
  { tl with _cycleDuration := uniform_int_distribution 4 6 engine }

/-- Modelled from the spec: the member declarations of the class, which are in
the header `TrafficLight.h` and not in the implementation file.  The spec gives
the current phase initialised to `red`; a default-constructed buffer is empty.
The cycle duration has no value of its own before the constructor body runs;
the constructor overwrites whatever stands here. -/
def declared : TrafficLight :=
  { _currentPhase := TrafficLightPhase.red, _cycleDuration := 0, _messageQueue := [] }

/-- The constructor `TrafficLight::TrafficLight()`: the members are initialised
as declared, then the body calls `setCycleDuration()`. -/
def construct (engine : Nat) : TrafficLight :=
  setCycleDuration declared engine

/-- The method `TrafficLight::getCurrentPhase`: the phase is read under the lock
and returned; the object is handed back as the method leaves it. -/
def getCurrentPhase (tl : TrafficLight) : TrafficLightPhase × TrafficLight :=
  (tl._currentPhase, tl)

/-- The call `_messageQueue.receive()` on the member of a signal. -/
def receiveMessage (tl : TrafficLight) : Option (TrafficLightPhase × TrafficLight) :=
  match MessageQueue.receive tl._messageQueue with
  | none => none
  | some (phase, q) => some (phase, { tl with _messageQueue := q })

end TrafficLight

/-- The method `TrafficLight::waitForGreen`, over any way `receive` hands out
phases: `receive` maps the state before the call to `none` when the call never
returns, and to the phase returned and the state after it otherwise.  Each unit
of fuel pays for one pass through the `while (true)` body; the result is the
state in which `waitForGreen` returns, and `none` when it has not returned
within the fuel. -/
def waitForGreen {σ : Type} (receive : σ → Option (TrafficLightPhase × σ)) :
    Nat → σ → Option σ
  | 0, _ => none
  | fuel + 1, s =>
    match receive s with
    | none => none
    | some (phase, s1) =>
      if phase = TrafficLightPhase.green then some s1
      else waitForGreen receive fuel s1

/-- The receive of a consumer to which successive calls hand out the phases
`phases 0`, `phases 1`, ...; the state is the number of calls made so far. -/
def handOut (phases : Nat → TrafficLightPhase) (i : Nat) :
    Option (TrafficLightPhase × Nat) :=
  some (phases i, i + 1)

/-- Ticks of `std::chrono::system_clock` per second (a tick is a nanosecond). -/
def ticksPerSecond : Int := 1000000000

/-- The number of values of the type `size_t`. -/
def SIZE_MODULUS : Int := 2 ^ 64

/-- The method `TrafficLight::getDifferenceToCurrentTime`, with the reading
`current` of the clock as an input.  `duration_cast<seconds>` truncates the
difference toward zero, `count()` is a signed integer, and the `return`
converts it to the unsigned `size_t`. -/
def getDifferenceToCurrentTime (lastUpdate current : Int) : Nat :=
  (Int.tdiv (current - lastUpdate) ticksPerSecond % SIZE_MODULUS).toNat

/-- The state of a running cycling task: the signal it belongs to and its local
variable `lastUpdate`. -/
structure Cycling where
  light : TrafficLight
  lastUpdate : Int
  deriving DecidableEq, Repr

/-- The entry of `TrafficLight::cycleThroughPhases`: `lastUpdate` is set to the
reading `now` of the clock. -/
def cycleThroughPhasesEntry (tl : TrafficLight) (now : Int) : Cycling :=
  { light := tl, lastUpdate := now }

/-- One pass through the loop body of `TrafficLight::cycleThroughPhases`.
`current` is the clock reading taken inside `getDifferenceToCurrentTime`, `now`
the one assigned to `lastUpdate`, `engine` the entropy of the redraw.  The
second component is the argument of the call of `send`, when there is one. -/
def cycleThroughPhasesIteration (s : Cycling) (current now : Int) (engine : Nat) :
    Cycling × Option TrafficLightPhase :=
  if getDifferenceToCurrentTime s.lastUpdate current ≥ s.light._cycleDuration then
    let tl1 := TrafficLight.setCycleDuration s.light engine
    let newPhase :=
      if tl1._currentPhase = TrafficLightPhase.red then TrafficLightPhase.green
      else TrafficLightPhase.red
    let tl2 := { tl1 with _currentPhase := newPhase }
    let tl3 := { tl2 with _messageQueue := MessageQueue.send tl2._messageQueue newPhase }
    ({ light := tl3, lastUpdate := now }, some newPhase)
  else (s, none)

/-- A signal with its single cycling task started: the constructor, then the
entry of `cycleThroughPhases`. -/
def started (engine : Nat) (now : Int) : Cycling :=
  cycleThroughPhasesEntry (TrafficLight.construct engine) now

/-- What happens at an iteration boundary: the cycling task runs one iteration,
or a consumer inside `receive` holds the channel lock and evaluates the wait
predicate. -/
inductive Event where
  | iteration (current now : Int) (engine : Nat) : Event
  | receive : Event
  deriving DecidableEq, Repr

/-- The state after an event. -/
def step (s : Cycling) : Event → Cycling
  | Event.iteration current now engine => (cycleThroughPhasesIteration s current now engine).1
  | Event.receive =>
    match TrafficLight.receiveMessage s.light with
    | none => s
    | some (_, tl) => { s with light := tl }

/-- The value sent by an event, if any. -/
def sentAt (s : Cycling) : Event → List TrafficLightPhase
  | Event.iteration current now engine =>
    (cycleThroughPhasesIteration s current now engine).2.toList
  | Event.receive => []

/-- The state after a sequence of events. -/
def finalState : Cycling → List Event → Cycling
  | s, [] => s
  | s, e :: es => finalState (step s e) es

/-- The values sent to the channel during a sequence of events, in order. -/
def sentBy : Cycling → List Event → List TrafficLightPhase
  | _, [] => []
  | s, e :: es => sentAt s e ++ sentBy (step s e) es

/-- The number of flips during a sequence of events: every flip sends once. -/
def flipCount (s : Cycling) (es : List Event) : Nat :=
  (sentBy s es).length

/-- The first part of one pass through the loop body of
`TrafficLight::cycleThroughPhases`, up to `lock.unlock()`: the test of the
elapsed time and, when it holds, the new `lastUpdate`, the redraw, and the write
of the toggled phase under `_mutex`.  The second component is the local
`newPhase` that is still to be sent, when the test held. -/
def cycleThroughPhasesWrite (s : Cycling) (current now : Int) (engine : Nat) :
    Cycling × Option TrafficLightPhase :=
  if getDifferenceToCurrentTime s.lastUpdate current ≥ s.light._cycleDuration then
    let tl1 := TrafficLight.setCycleDuration s.light engine
    let newPhase :=
      if tl1._currentPhase = TrafficLightPhase.red then TrafficLightPhase.green
      else TrafficLightPhase.red
    let tl2 := { tl1 with _currentPhase := newPhase }
    ({ light := tl2, lastUpdate := now }, some newPhase)
  else (s, none)

/-- The second part of the pass: `_messageQueue.send(std::move(newPhase))`. -/
def cycleThroughPhasesSend (s : Cycling) (newPhase : TrafficLightPhase) : Cycling :=
  { s with light :=
      { s.light with _messageQueue := MessageQueue.send s.light._messageQueue newPhase } }

/-- The cycling task with the place it has reached in the loop body: `pending`
is `some newPhase` between the release of `_mutex` and the call of `send`, and
`none` at an iteration boundary. -/
structure Running where
  task : Cycling
  pending : Option TrafficLightPhase
  deriving DecidableEq, Repr

/-- What one thread does while it holds a lock: the cycling task runs the first
part of a pass, the cycling task runs the `send` of the pass, or a consumer
inside `receive` evaluates the wait predicate. -/
inductive Moment where
  | write (current now : Int) (engine : Nat) : Moment
  | send : Moment
  | receive : Moment
  deriving DecidableEq, Repr

/-- The state after a moment.  The cycling task is one thread: it starts a pass
only at an iteration boundary and sends only what is pending; a moment that does
not fit the place the task has reached leaves the state as it is. -/
def stepMoment (r : Running) : Moment → Running
  | Moment.write current now engine =>
    match r.pending with
    | some _ => r
    | none =>
      { task := (cycleThroughPhasesWrite r.task current now engine).1,
        pending := (cycleThroughPhasesWrite r.task current now engine).2 }
  | Moment.send =>
    match r.pending with
    | none => r
    | some newPhase => { task := cycleThroughPhasesSend r.task newPhase, pending := none }
  | Moment.receive =>
    match TrafficLight.receiveMessage r.task.light with
    | none => r
    | some (_, tl) => { r with task := { r.task with light := tl } }

/-- The receive of a consumer with no other thread running. -/
def receiveAlone (tl : TrafficLight) : Option (TrafficLightPhase × TrafficLight) :=
  TrafficLight.receiveMessage tl

/-- The phases `p`, its opposite, `p`, ... : `n` values. -/
def alternating : TrafficLightPhase → Nat → List TrafficLightPhase
  | _, 0 => []
  | p, n + 1 => p :: alternating p.opposite n

namespace MessageQueue

variable {T : Type}

theorem receive_nil : receive ([] : List T) = none := by
  simp [receive]

theorem receive_of_ne_nil (q : List T) (h : q ≠ []) :
    receive q = some (back q h, []) := by
  unfold receive
  have h1 : ¬ (q.isEmpty = true) := by
    intro e
    exact h (List.isEmpty_iff.mp e)
  rw [dif_neg h1]

theorem receive_eq_none_iff (q : List T) : receive q = none ↔ q = [] := by
  constructor
  · intro h
    by_contra hne
    rw [receive_of_ne_nil q hne] at h
    cases h
  · intro h
    rw [h]
    exact receive_nil

theorem sendAll_eq_append (q vs : List T) : sendAll q vs = q ++ vs := by
  induction vs generalizing q with
  | nil => simp [sendAll]
  | cons v vs ih =>
    have h := ih (send q v)
    simp only [sendAll, List.foldl_cons] at h ⊢
    rw [h]
    simp [send]

theorem history_sends (q vs : List T) (ops : List (Op T)) :
    history q (vs.map Op.send ++ ops) = history (q ++ vs) ops := by
  induction vs generalizing q with
  | nil => simp
  | cons v vs ih =>
    have h := ih (send q v)
    simpa [history, send] using h

theorem back_sublist (q : List T) (h : q ≠ []) : [back q h].Sublist q := by
  rw [List.singleton_sublist]
  exact List.getLast_mem h

/-- The values returned by a history, followed by what is left in the buffer,
form a subsequence of the initial buffer followed by the values sent. -/
theorem history_sublist (q : List T) (ops : List (Op T)) :
    ((history q ops).2 ++ (history q ops).1).Sublist (q ++ sentValues ops) := by
  induction ops generalizing q with
  | nil => simp [history, sentValues]
  | cons op ops ih =>
    cases op with
    | send msg =>
      have h := ih (send q msg)
      simpa [history, sentValues, send] using h
    | receive =>
      by_cases hq : q = []
      · subst hq
        have h := ih ([] : List T)
        simpa [history, sentValues, receive_nil] using h
      · have h := ih ([] : List T)
        simp only [history, sentValues, receive_of_ne_nil q hq]
        have h2 := List.Sublist.append (back_sublist q hq) h
        simpa using h2

theorem history_returned_sublist (q : List T) (ops : List (Op T)) :
    (history q ops).2.Sublist (q ++ sentValues ops) :=
  (List.sublist_append_left _ _).trans (history_sublist q ops)

end MessageQueue

/-! ## Lemmas on waitForGreen -/

theorem phase_ne_green (p : TrafficLightPhase) :
    p ≠ TrafficLightPhase.green ↔ p = TrafficLightPhase.red := by
  cases p <;> simp

theorem waitForGreen_handOut_first_green (phases : Nat → TrafficLightPhase) :
    ∀ (fuel j k : Nat), j ≤ k → k - j < fuel →
      (∀ i, j ≤ i → i < k → phases i = TrafficLightPhase.red) →
      phases k = TrafficLightPhase.green →
      waitForGreen (handOut phases) fuel j = some (k + 1) := by
  intro fuel
  induction fuel with
  | zero => intro j k _ h; omega
  | succ fuel ih =>
    intro j k hjk hfuel hred hgreen
    by_cases hj : j = k
    · subst hj
      simp [waitForGreen, handOut, hgreen]
    · have hjr : phases j = TrafficLightPhase.red := hred j (le_refl j) (by omega)
      have hrec := ih (j + 1) k (by omega) (by omega)
        (fun i h1 h2 => hred i (by omega) h2) hgreen
      simp [waitForGreen, handOut, hjr, hrec]

theorem waitForGreen_handOut_all_red (phases : Nat → TrafficLightPhase)
    (hred : ∀ i, phases i = TrafficLightPhase.red) :
    ∀ (fuel j : Nat), waitForGreen (handOut phases) fuel j = none := by
  intro fuel
  induction fuel with
  | zero => intro j; rfl
  | succ fuel ih =>
    intro j
    simp [waitForGreen, handOut, hred j, ih (j + 1)]

theorem waitForGreen_handOut_returned (phases : Nat → TrafficLightPhase) :
    ∀ (fuel j n : Nat), waitForGreen (handOut phases) fuel j = some n →
      j < n ∧ phases (n - 1) = TrafficLightPhase.green ∧
      ∀ i, j ≤ i → i < n - 1 → phases i = TrafficLightPhase.red := by
  intro fuel
  induction fuel with
  | zero => intro j n h; simp [waitForGreen] at h
  | succ fuel ih =>
    intro j n h
    by_cases hj : phases j = TrafficLightPhase.green
    · simp [waitForGreen, handOut, hj] at h
      subst h
      refine ⟨by omega, by simpa using hj, ?_⟩
      intro i h1 h2
      omega
    · simp [waitForGreen, handOut, hj] at h
      obtain ⟨h1, h2, h3⟩ := ih (j + 1) n h
      refine ⟨by omega, h2, ?_⟩
      intro i hi1 hi2
      by_cases hij : i = j
      · subst hij
        exact (phase_ne_green _).mp hj
      · exact h3 i (by omega) hi2

/-! ## Lemmas on the cycling task -/

theorem opposite_ne (p : TrafficLightPhase) : p.opposite ≠ p := by
  cases p <;> decide

theorem uniform_int_distribution_range (engine : Nat) :
    4 ≤ uniform_int_distribution 4 6 engine ∧ uniform_int_distribution 4 6 engine ≤ 6 := by
  unfold uniform_int_distribution
  omega

theorem iteration_flip (s : Cycling) (current now : Int) (engine : Nat)
    (h : getDifferenceToCurrentTime s.lastUpdate current ≥ s.light._cycleDuration) :
    cycleThroughPhasesIteration s current now engine =
      ({ light :=
          { _currentPhase := s.light._currentPhase.opposite,
            _cycleDuration := uniform_int_distribution 4 6 engine,
            _messageQueue :=
              MessageQueue.send s.light._messageQueue s.light._currentPhase.opposite },
         lastUpdate := now },
        some s.light._currentPhase.opposite) := by
  unfold cycleThroughPhasesIteration
  rw [if_pos h]
  rfl

theorem iteration_noflip (s : Cycling) (current now : Int) (engine : Nat)
    (h : ¬ getDifferenceToCurrentTime s.lastUpdate current ≥ s.light._cycleDuration) :
    cycleThroughPhasesIteration s current now engine = (s, none) := by
  unfold cycleThroughPhasesIteration
  rw [if_neg h]

theorem receiveMessage_eq_none (tl : TrafficLight) (h : tl._messageQueue = []) :
    TrafficLight.receiveMessage tl = none := by
  simp [TrafficLight.receiveMessage, h, MessageQueue.receive_nil]

theorem receiveMessage_of_ne_nil (tl : TrafficLight) (h : tl._messageQueue ≠ []) :
    TrafficLight.receiveMessage tl =
      some (MessageQueue.back tl._messageQueue h, { tl with _messageQueue := [] }) := by
  simp [TrafficLight.receiveMessage, MessageQueue.receive_of_ne_nil _ h]

theorem step_receive_phase (s : Cycling) :
    (step s Event.receive).light._currentPhase = s.light._currentPhase ∧
    (step s Event.receive).light._cycleDuration = s.light._cycleDuration ∧
    (step s Event.receive).lastUpdate = s.lastUpdate := by
  by_cases hq : s.light._messageQueue = []
  · simp [step, receiveMessage_eq_none _ hq]
  · simp [step, receiveMessage_of_ne_nil _ hq]

/-- The values sent alternate, starting with the opposite of the phase at the
start. -/
theorem sentBy_alternating (s : Cycling) (es : List Event) :
    sentBy s es = alternating s.light._currentPhase.opposite (flipCount s es) := by
  induction es generalizing s with
  | nil => rfl
  | cons e es ih =>
    have hrec := ih (step s e)
    cases e with
    | iteration current now engine =>
      by_cases h : getDifferenceToCurrentTime s.lastUpdate current ≥ s.light._cycleDuration
      · simp only [flipCount, sentBy, sentAt, step,
          iteration_flip s current now engine h] at hrec ⊢
        simp only [Option.toList, List.singleton_append, List.length_cons, alternating,
          List.append_eq, List.nil_append]
        rw [← hrec]
      · simp only [flipCount, sentBy, sentAt, step,
          iteration_noflip s current now engine h] at hrec ⊢
        simpa [Option.toList] using hrec
    | receive =>
      have hp := (step_receive_phase s).1
      simp only [flipCount, sentBy, sentAt, List.nil_append] at hrec ⊢
      rw [hp] at hrec
      exact hrec

theorem alternating_head (p : TrafficLightPhase) (n : Nat) :
    ∀ b ∈ (alternating p n).head?, b = p := by
  cases n with
  | zero => simp [alternating]
  | succ n => simp [alternating]

theorem alternating_chain (p : TrafficLightPhase) (n : Nat) :
    List.Chain' (fun a b => a ≠ b) (alternating p n) := by
  induction n generalizing p with
  | zero => simp [alternating]
  | succ n ih =>
    rw [alternating, List.chain'_cons']
    refine ⟨?_, ih p.opposite⟩
    intro b hb
    rw [alternating_head p.opposite n b hb]
    exact (opposite_ne p).symm

theorem duration_step (s : Cycling) (e : Event)
    (h : 4 ≤ s.light._cycleDuration ∧ s.light._cycleDuration ≤ 6) :
    4 ≤ (step s e).light._cycleDuration ∧ (step s e).light._cycleDuration ≤ 6 := by
  cases e with
  | iteration current now engine =>
    by_cases hc : getDifferenceToCurrentTime s.lastUpdate current ≥ s.light._cycleDuration
    · simp only [step, iteration_flip s current now engine hc]
      exact uniform_int_distribution_range engine
    · simpa [step, iteration_noflip s current now engine hc] using h
  | receive =>
    rw [(step_receive_phase s).2.1]
    exact h

theorem duration_finalState (s : Cycling) (es : List Event)
    (h : 4 ≤ s.light._cycleDuration ∧ s.light._cycleDuration ≤ 6) :
    4 ≤ (finalState s es).light._cycleDuration ∧
      (finalState s es).light._cycleDuration ≤ 6 := by
  induction es generalizing s with
  | nil => exact h
  | cons e es ih => exact ih (step s e) (duration_step s e h)

theorem write_flip (s : Cycling) (current now : Int) (engine : Nat)
    (h : getDifferenceToCurrentTime s.lastUpdate current ≥ s.light._cycleDuration) :
    cycleThroughPhasesWrite s current now engine =
      ({ light :=
          { _currentPhase := s.light._currentPhase.opposite,
            _cycleDuration := uniform_int_distribution 4 6 engine,
            _messageQueue := s.light._messageQueue },
         lastUpdate := now },
        some s.light._currentPhase.opposite) := by
  unfold cycleThroughPhasesWrite
  rw [if_pos h]
  rfl

theorem write_noflip (s : Cycling) (current now : Int) (engine : Nat)
    (h : ¬ getDifferenceToCurrentTime s.lastUpdate current ≥ s.light._cycleDuration) :
    cycleThroughPhasesWrite s current now engine = (s, none) := by
  unfold cycleThroughPhasesWrite
  rw [if_neg h]

/-- The two parts of a pass, run one after the other from an iteration boundary,
are the pass taken as one step. -/
theorem write_then_send_is_iteration (s : Cycling) (current now : Int) (engine : Nat) :
    stepMoment (stepMoment { task := s, pending := none } (Moment.write current now engine))
        Moment.send
      = { task := (cycleThroughPhasesIteration s current now engine).1, pending := none } := by
  by_cases h : getDifferenceToCurrentTime s.lastUpdate current ≥ s.light._cycleDuration
  · simp only [stepMoment, write_flip s current now engine h,
      iteration_flip s current now engine h]
    rfl
  · simp only [stepMoment, write_noflip s current now engine h,
      iteration_noflip s current now engine h]

/-- While the clock moves forward, the unsigned difference is the number of
whole seconds elapsed. -/
theorem getDifference_forward (lastUpdate current : Int) (d : Nat)
    (h0 : lastUpdate ≤ current) (h1 : current - lastUpdate < 2 ^ 63) :
    getDifferenceToCurrentTime lastUpdate current ≥ d ↔
      (d : Int) * ticksPerSecond ≤ current - lastUpdate := by
  unfold getDifferenceToCurrentTime ticksPerSecond SIZE_MODULUS
  rw [Int.tdiv_eq_ediv (by omega) (by norm_num)]
  norm_num
  omega

/-- While the clock moves forward, an iteration flips exactly when at least the
cycle duration has elapsed since the last flip, and the two flip times it
records are at least the cycle duration apart. -/
theorem flip_timing_forward (s : Cycling) (current now : Int) (engine : Nat)
    (h0 : s.lastUpdate ≤ current) (h1 : current - s.lastUpdate < 2 ^ 63)
    (h2 : current ≤ now) :
    ((cycleThroughPhasesIteration s current now engine).2.isSome = true ↔
      (s.light._cycleDuration : Int) * ticksPerSecond ≤ current - s.lastUpdate) ∧
    ((cycleThroughPhasesIteration s current now engine).2.isSome = true →
      (s.light._cycleDuration : Int) * ticksPerSecond ≤
        (cycleThroughPhasesIteration s current now engine).1.lastUpdate - s.lastUpdate) := by
  have hf := getDifference_forward s.lastUpdate current s.light._cycleDuration h0 h1
  by_cases h : getDifferenceToCurrentTime s.lastUpdate current ≥ s.light._cycleDuration
  · have hle := hf.mp h
    rw [iteration_flip s current now engine h]
    refine ⟨by simpa using hle, ?_⟩
    intro _
    show (s.light._cycleDuration : Int) * ticksPerSecond ≤ now - s.lastUpdate
    omega
  · rw [iteration_noflip s current now engine h]
    have hlt : ¬ (s.light._cycleDuration : Int) * ticksPerSecond ≤ current - s.lastUpdate :=
      fun hle => h (hf.mpr hle)
    simp [hlt]

theorem receiveMessage_frame (tl tl1 : TrafficLight) (p : TrafficLightPhase)
    (h : TrafficLight.receiveMessage tl = some (p, tl1)) :
    tl1._currentPhase = tl._currentPhase ∧ tl1._cycleDuration = tl._cycleDuration ∧
      tl1._messageQueue = [] := by
  by_cases hq : tl._messageQueue = []
  · rw [receiveMessage_eq_none _ hq] at h
    cases h
  · rw [receiveMessage_of_ne_nil _ hq] at h
    simp only [Option.some.injEq, Prod.mk.injEq] at h
    obtain ⟨_, h2⟩ := h
    subst h2
    exact ⟨rfl, rfl, rfl⟩

theorem waitForGreen_alone_frame (fuel : Nat) :
    ∀ (tl tl1 : TrafficLight), waitForGreen receiveAlone fuel tl = some tl1 →
      tl1._currentPhase = tl._currentPhase ∧ tl1._cycleDuration = tl._cycleDuration ∧
        tl1._messageQueue = [] := by
  induction fuel with
  | zero => intro tl tl1 h; simp [waitForGreen] at h
  | succ fuel ih =>
    intro tl tl1 h
    simp only [waitForGreen, receiveAlone] at h
    cases hr : TrafficLight.receiveMessage tl with
    | none => simp [hr] at h
    | some out =>
      obtain ⟨p, tl2⟩ := out
      obtain ⟨f1, f2, f3⟩ := receiveMessage_frame tl tl2 p hr
      simp only [hr] at h
      by_cases hp : p = TrafficLightPhase.green
      · simp only [hp, if_true, Option.some.injEq] at h
        subst h
        exact ⟨f1, f2, f3⟩
      · simp only [hp, if_false] at h
        obtain ⟨g1, g2, g3⟩ := ih tl2 tl1 h
        exact ⟨g1.trans f1, g2.trans f2, g3⟩

/-! ## The claims on the message queue and on waitForGreen -/

/-- C1 (coalescing, latest wins).  Let the values `vs = v1..vN`, `N ≥ 1`, be sent
to an empty channel with no receive in between.  Then the next receive returns
`vN` and empties the buffer; whatever operations follow, the values returned
later are those a fresh empty channel returns for the later operations alone,
so they are taken from the values sent later; hence a value among `v1..vN-1`
that is neither `vN` nor sent again later is returned by no receive. -/
theorem coalescing_latest_wins {T : Type} (vs : List T) (hne : vs ≠ []) :
    MessageQueue.receive (MessageQueue.sendAll [] vs) = some (vs.getLast hne, []) ∧
    (∀ later : List (MessageQueue.Op T),
      MessageQueue.history [] (vs.map MessageQueue.Op.send ++ MessageQueue.Op.receive :: later)
        = ((MessageQueue.history [] later).1,
            vs.getLast hne :: (MessageQueue.history [] later).2) ∧
      (MessageQueue.history [] later).2.Sublist (MessageQueue.sentValues later)) ∧
    (∀ (later : List (MessageQueue.Op T)) (v : T), v ∈ vs.dropLast →
      v ≠ vs.getLast hne → v ∉ MessageQueue.sentValues later →
      v ∉ (MessageQueue.history []
        (vs.map MessageQueue.Op.send ++ MessageQueue.Op.receive :: later)).2) := by
  have hrun : ∀ later : List (MessageQueue.Op T),
      MessageQueue.history [] (vs.map MessageQueue.Op.send ++ MessageQueue.Op.receive :: later)
        = ((MessageQueue.history [] later).1,
            vs.getLast hne :: (MessageQueue.history [] later).2) := by
    intro later
    rw [MessageQueue.history_sends]
    simp only [List.nil_append, MessageQueue.history, MessageQueue.receive_of_ne_nil vs hne]
    rfl
  have hsub : ∀ later : List (MessageQueue.Op T),
      (MessageQueue.history [] later).2.Sublist (MessageQueue.sentValues later) := by
    intro later
    simpa using MessageQueue.history_returned_sublist ([] : List T) later
  refine ⟨?_, fun later => ⟨hrun later, hsub later⟩, ?_⟩
  · rw [MessageQueue.sendAll_eq_append, List.nil_append,
      MessageQueue.receive_of_ne_nil vs hne]
    rfl
  · intro later v _ hlast hlater hmem
    rw [hrun later] at hmem
    rcases List.mem_cons.mp hmem with h | h
    · exact hlast h
    · exact hlater ((hsub later).subset h)

/-- Witness of C1: sending 1, 2, 3 to an integer channel and receiving once
yields 3. -/
theorem coalescing_latest_wins_witness :
    MessageQueue.receive (MessageQueue.sendAll [] [(1 : Int), 2, 3]) = some (3, []) :=
  (coalescing_latest_wins [(1 : Int), 2, 3] (by decide)).1

/-- C2.  `receive` returns exactly when the buffer is non-empty, so the tail
read is made on a non-empty buffer only; the value returned is the tail, the
buffer is left empty, and a second `receive` with no send in between does not
return; and when the values sent are pairwise different messages, no message is
returned by two receives. -/
theorem receive_needs_nonempty_and_empties {T : Type} :
    (∀ q : List T, (MessageQueue.receive q).isSome = true ↔ q ≠ []) ∧
    (∀ (q : List T) (v : T) (q1 : List T), MessageQueue.receive q = some (v, q1) →
      (∃ h : q ≠ [], v = MessageQueue.back q h) ∧ q1 = [] ∧
      MessageQueue.receive q1 = none ∧
      MessageQueue.history q [MessageQueue.Op.receive, MessageQueue.Op.receive] = ([], [v])) ∧
    (∀ ops : List (MessageQueue.Op T), (MessageQueue.sentValues ops).Nodup →
      (MessageQueue.history [] ops).2.Nodup) := by
  refine ⟨?_, ?_, ?_⟩
  · intro q
    by_cases hq : q = []
    · subst hq
      simp [MessageQueue.receive_nil]
    · simp [MessageQueue.receive_of_ne_nil q hq, hq]
  · intro q v q1 h
    by_cases hq : q = []
    · subst hq
      rw [MessageQueue.receive_nil] at h
      cases h
    · rw [MessageQueue.receive_of_ne_nil q hq] at h
      simp only [Option.some.injEq, Prod.mk.injEq] at h
      obtain ⟨hv, hq1⟩ := h
      subst hq1
      refine ⟨⟨hq, hv.symm⟩, rfl, MessageQueue.receive_nil, ?_⟩
      simp [MessageQueue.history, MessageQueue.receive_of_ne_nil q hq,
        MessageQueue.receive_nil, hv]
  · intro ops hnodup
    have h := MessageQueue.history_returned_sublist ([] : List T) ops
    rw [List.nil_append] at h
    exact List.Nodup.sublist h hnodup

/-- Witness of C2: after 1, 2, 3 are sent, one receive returns 3 and two more
return nothing. -/
theorem receive_needs_nonempty_and_empties_witness :
    MessageQueue.receive [(1 : Int), 2, 3] = some (3, []) ∧
    (MessageQueue.receive ([] : List Int)).isSome = false ∧
    (MessageQueue.history []
      [MessageQueue.Op.send (1 : Int), MessageQueue.Op.send 2, MessageQueue.Op.send 3,
        MessageQueue.Op.receive, MessageQueue.Op.receive, MessageQueue.Op.receive]).2.Nodup :=
  ⟨by decide, by decide,
    (receive_needs_nonempty_and_empties).2.2 _ (by decide)⟩

/-- C3.  Let successive receive calls hand out `phases 0`, `phases 1`, ....  When
the first green is `phases k`, `waitForGreen` returns after exactly `k + 1`
calls of receive (the `k` reds and the green), for every fuel above `k`; when
every phase is red it returns for no fuel; and whenever it returns after `n`
calls, `n ≥ 1`, the last phase received is green and all before it are red. -/
theorem waitForGreen_returns_exactly_on_green (phases : Nat → TrafficLightPhase) :
    (∀ k : Nat, (∀ i, i < k → phases i = TrafficLightPhase.red) →
      phases k = TrafficLightPhase.green →
      ∀ fuel, k < fuel → waitForGreen (handOut phases) fuel 0 = some (k + 1)) ∧
    ((∀ i, phases i = TrafficLightPhase.red) →
      ∀ fuel, waitForGreen (handOut phases) fuel 0 = none) ∧
    (∀ fuel n : Nat, waitForGreen (handOut phases) fuel 0 = some n →
      0 < n ∧ phases (n - 1) = TrafficLightPhase.green ∧
      ∀ i, i < n - 1 → phases i = TrafficLightPhase.red) := by
  refine ⟨?_, ?_, ?_⟩
  · intro k hred hgreen fuel hfuel
    exact waitForGreen_handOut_first_green phases fuel 0 k (Nat.zero_le k) (by omega)
      (fun i _ h => hred i h) hgreen
  · intro hred fuel
    exact waitForGreen_handOut_all_red phases hred fuel 0
  · intro fuel n h
    obtain ⟨h1, h2, h3⟩ := waitForGreen_handOut_returned phases fuel 0 n h
    exact ⟨h1, h2, fun i hi => h3 i (Nat.zero_le i) hi⟩

/-- Witness of C3: with red, red, green, ... handed out, `waitForGreen` returns
after three calls of receive. -/
theorem waitForGreen_returns_exactly_on_green_witness :
    waitForGreen
      (handOut (fun i => if i < 2 then TrafficLightPhase.red else TrafficLightPhase.green))
      3 0 = some 3 :=
  (waitForGreen_returns_exactly_on_green
    (fun i => if i < 2 then TrafficLightPhase.red else TrafficLightPhase.green)).1 2
    (by intro i hi; simp [hi]) (by simp) 3 (by omega)

/-! ## The claims on the signal and its cycling task -/

/-- C5.  An iteration that flips sets the current phase to the opposite of the
phase before it (red becomes green, green becomes red) and sends exactly the new
phase; in a run of a single cycling task from a freshly constructed signal the
values sent are green, red, green, ..., one per flip, and no two consecutive
ones are equal. -/
theorem flips_send_opposite_phase :
    (TrafficLightPhase.red.opposite = TrafficLightPhase.green ∧
      TrafficLightPhase.green.opposite = TrafficLightPhase.red) ∧
    (∀ (s : Cycling) (current now : Int) (engine : Nat),
      getDifferenceToCurrentTime s.lastUpdate current ≥ s.light._cycleDuration →
      (cycleThroughPhasesIteration s current now engine).1.light._currentPhase
        = s.light._currentPhase.opposite ∧
      (cycleThroughPhasesIteration s current now engine).2
        = some s.light._currentPhase.opposite ∧
      (cycleThroughPhasesIteration s current now engine).1.light._messageQueue
        = s.light._messageQueue ++ [s.light._currentPhase.opposite]) ∧
    (∀ (engine : Nat) (now : Int) (es : List Event),
      sentBy (started engine now) es
        = alternating TrafficLightPhase.green (flipCount (started engine now) es) ∧
      List.Chain' (fun a b => a ≠ b) (sentBy (started engine now) es)) := by
  refine ⟨⟨rfl, rfl⟩, ?_, ?_⟩
  · intro s current now engine h
    rw [iteration_flip s current now engine h]
    exact ⟨rfl, rfl, rfl⟩
  · intro engine now es
    have h := sentBy_alternating (started engine now) es
    have hg : (started engine now).light._currentPhase.opposite = TrafficLightPhase.green := rfl
    rw [hg] at h
    refine ⟨h, ?_⟩
    rw [h]
    exact alternating_chain _ _

/-- Witness of C5: three flips send green, red, green. -/
theorem flips_send_opposite_phase_witness :
    sentBy (started 0 0)
      [Event.iteration 4000000000 4000000001 1, Event.receive,
        Event.iteration 9000000001 9000000002 1,
        Event.iteration 14000000002 14000000003 0]
      = alternating TrafficLightPhase.green 3 :=
  ((flips_send_opposite_phase).2.2 0 0 _).1

/-- C6.  The constructor draws the cycle duration, and the draw lies in
`[4, 6]` whatever the entropy; in every state of a run of the cycling task with
receives interleaved the cycle duration lies in `[4, 6]`; an iteration that
flips stores a fresh draw; an iteration that does not flip, a receive and
`getCurrentPhase` leave the cycle duration as it is; and each of 4, 5, 6 is the
outcome of some draw. -/
theorem cycle_duration_bounds :
    (∀ engine : Nat,
      (TrafficLight.construct engine)._cycleDuration = uniform_int_distribution 4 6 engine ∧
      4 ≤ (TrafficLight.construct engine)._cycleDuration ∧
      (TrafficLight.construct engine)._cycleDuration ≤ 6) ∧
    (∀ (engine : Nat) (now : Int) (es : List Event),
      4 ≤ (finalState (started engine now) es).light._cycleDuration ∧
      (finalState (started engine now) es).light._cycleDuration ≤ 6) ∧
    (∀ (s : Cycling) (current now : Int) (engine : Nat),
      getDifferenceToCurrentTime s.lastUpdate current ≥ s.light._cycleDuration →
      (cycleThroughPhasesIteration s current now engine).1.light._cycleDuration
        = uniform_int_distribution 4 6 engine) ∧
    (∀ (s : Cycling) (current now : Int) (engine : Nat),
      getDifferenceToCurrentTime s.lastUpdate current < s.light._cycleDuration →
      (cycleThroughPhasesIteration s current now engine).1.light._cycleDuration
        = s.light._cycleDuration) ∧
    (∀ s : Cycling,
      (step s Event.receive).light._cycleDuration = s.light._cycleDuration) ∧
    (∀ tl : TrafficLight,
      (TrafficLight.getCurrentPhase tl).2._cycleDuration = tl._cycleDuration) ∧
    (∀ d : Nat, 4 ≤ d → d ≤ 6 → ∃ engine, uniform_int_distribution 4 6 engine = d) := by
  refine ⟨?_, ?_, ?_, ?_, ?_, ?_, ?_⟩
  · intro engine
    exact ⟨rfl, uniform_int_distribution_range engine⟩
  · intro engine now es
    exact duration_finalState (started engine now) es (uniform_int_distribution_range engine)
  · intro s current now engine h
    rw [iteration_flip s current now engine h]
  · intro s current now engine h
    rw [iteration_noflip s current now engine (Nat.not_le.mpr h)]
  · intro s
    exact (step_receive_phase s).2.1
  · intro tl
    rfl
  · intro d h4 h6
    refine ⟨d - 4, ?_⟩
    unfold uniform_int_distribution
    omega

/-- Witness of C6: after two flips with draws 1 and 2 the cycle duration is 6. -/
theorem cycle_duration_bounds_witness :
    (cycleThroughPhasesIteration (started 0 0) 4000000000 4000000001 2).1.light._cycleDuration
      = uniform_int_distribution 4 6 2 :=
  (cycle_duration_bounds).2.2.1 (started 0 0) 4000000000 4000000001 2 (by decide)

/-- C7 at a clock that was set back.  The task starts at the reading of 10 s with
a cycle duration of 4 s; the next reading is 8 s.  The difference of -2 s
becomes 18446744073709551614 as a `size_t`, the iteration flips to green and
sends green, and the flip time recorded is 2 s before the previous one. -/
theorem backward_clock_flips_early :
    (started 0 10000000000).light._cycleDuration = 4 ∧
    getDifferenceToCurrentTime 10000000000 8000000000 = 18446744073709551614 ∧
    (8000000000 - 10000000000 : Int) < 4 * ticksPerSecond ∧
    cycleThroughPhasesIteration (started 0 10000000000) 8000000000 8000000001 0 =
      ({ light :=
          { _currentPhase := TrafficLightPhase.green, _cycleDuration := 4,
            _messageQueue := [TrafficLightPhase.green] },
         lastUpdate := 8000000001 },
        some TrafficLightPhase.green) := by
  decide

/-- C8.  For every outcome of the draw in the constructor, `getCurrentPhase` on
the constructed signal returns red, the channel buffer is empty, and a receive
on it does not return. -/
theorem initial_state_is_red (engine : Nat) :
    (TrafficLight.getCurrentPhase (TrafficLight.construct engine)).1 = TrafficLightPhase.red ∧
    (TrafficLight.construct engine)._messageQueue = [] ∧
    TrafficLight.receiveMessage (TrafficLight.construct engine) = none :=
  ⟨rfl, rfl, receiveMessage_eq_none _ rfl⟩

/-- The frame of the reads, of the waits and of the idle passes.
`getCurrentPhase` returns the current phase and leaves the signal as it is;
`waitForGreen` with no other thread running returns with the current phase and
the cycle duration it found and an empty buffer; a pass for which
`getDifferenceToCurrentTime` returns less than the cycle duration leaves the
whole state as it is and sends nothing, which is the case whenever the clock has
moved forward by less than the cycle duration. -/
theorem frame_outside_flips :
    (∀ tl : TrafficLight, TrafficLight.getCurrentPhase tl = (tl._currentPhase, tl)) ∧
    (∀ (fuel : Nat) (tl tl1 : TrafficLight),
      waitForGreen receiveAlone fuel tl = some tl1 →
      tl1._currentPhase = tl._currentPhase ∧ tl1._cycleDuration = tl._cycleDuration ∧
      tl1._messageQueue = []) ∧
    (∀ (s : Cycling) (current now : Int) (engine : Nat),
      getDifferenceToCurrentTime s.lastUpdate current < s.light._cycleDuration →
      cycleThroughPhasesIteration s current now engine = (s, none)) ∧
    (∀ (s : Cycling) (current now : Int) (engine : Nat),
      s.lastUpdate ≤ current → current - s.lastUpdate < 2 ^ 63 →
      current - s.lastUpdate < (s.light._cycleDuration : Int) * ticksPerSecond →
      cycleThroughPhasesIteration s current now engine = (s, none)) := by
  refine ⟨fun _ => rfl, ?_, ?_, ?_⟩
  · intro fuel tl tl1 h
    exact waitForGreen_alone_frame fuel tl tl1 h
  · intro s current now engine h
    exact iteration_noflip s current now engine (Nat.not_le.mpr h)
  · intro s current now engine h0 h1 h2
    apply iteration_noflip
    intro hge
    have hle := (getDifference_forward s.lastUpdate current s.light._cycleDuration h0 h1).mp hge
    omega

/-- C10 at a clock that was set back.  The task starts at the reading of 10 s
with a cycle duration of 4 s; the next reading is 8 s, so the elapsed time of
-2 s is below the cycle duration.  The pass nevertheless changes the current
phase, the cycle duration, the last-flip time and the buffer. -/
theorem backward_clock_breaks_frame :
    (8000000000 - 10000000000 : Int)
      < ((started 0 10000000000).light._cycleDuration : Int) * ticksPerSecond ∧
    (cycleThroughPhasesIteration (started 0 10000000000) 8000000000 8000000001 1).1.light._currentPhase
      ≠ (started 0 10000000000).light._currentPhase ∧
    (cycleThroughPhasesIteration (started 0 10000000000) 8000000000 8000000001 1).1.light._cycleDuration
      ≠ (started 0 10000000000).light._cycleDuration ∧
    (cycleThroughPhasesIteration (started 0 10000000000) 8000000000 8000000001 1).1.lastUpdate
      ≠ (started 0 10000000000).lastUpdate ∧
    (cycleThroughPhasesIteration (started 0 10000000000) 8000000000 8000000001 1).1.light._messageQueue
      ≠ (started 0 10000000000).light._messageQueue := by
  decide

end TrafficSim
